import Mathlib

/-!
Verification development for the eBay camera-lot monitor (`src/monitor.py`).

The Python program is embedded shallowly:

* strings are modelled as `String` / `List Char`; Python's `str.lower` is
  modelled on the ASCII range (the titles, keyword tables and patterns in the
  program are ASCII);
* Python's substring test `w in t` is `containsSub`;
* the four `re` patterns used by the program are embedded as explicit
  matchers over `List Char` with Python `re.search` semantics: leftmost
  position first, alternatives in written order, word boundaries via
  `isWordChar`, `\s` via `isSpaceChar`, `\d` via `Char.isDigit`.
  Greedy pieces (`\d{1,4}`, `\s*`, `\s+`, `(?:x\s*)?`) are modelled by
  maximal munch plus explicit second tries where backtracking can matter;
  where maximal munch is used without a second try, the following literal
  begins with a non-space, non-digit character, so shorter munches can
  never succeed when the maximal one fails, and the embedding agrees with
  the backtracking semantics;
* the Python `set` used for the seen cache guarantees only membership; its
  iteration order (`list(seen)`) is modelled by an explicit enumeration
  parameter constrained by `Admissible`;
* network fetches are modelled as `Option (List Listing)` per source
  (`none` = the caught fetch exception), and an I/O failure inside
  `save_seen` (which `main` does not catch) by a `saveOk : Bool` parameter.
-/

/-- Character list of a string (Python strings are handled as their
character sequences). -/
def chars (s : String) : List Char := s.data

/-- ASCII uppercase/lowercase pairs, used to model Python `str.lower`. -/
def UPPER_LOWER : List (Char × Char) :=
  [('A', 'a'), ('B', 'b'), ('C', 'c'), ('D', 'd'), ('E', 'e'), ('F', 'f'),
   ('G', 'g'), ('H', 'h'), ('I', 'i'), ('J', 'j'), ('K', 'k'), ('L', 'l'),
   ('M', 'm'), ('N', 'n'), ('O', 'o'), ('P', 'p'), ('Q', 'q'), ('R', 'r'),
   ('S', 's'), ('T', 't'), ('U', 'u'), ('V', 'v'), ('W', 'w'), ('X', 'x'),
   ('Y', 'y'), ('Z', 'z')]

/-- Lowercase one character (ASCII model of Python `str.lower`). -/
def lowerChar (c : Char) : Char :=
  match UPPER_LOWER.find? (fun p => p.1 = c) with
  | some p => p.2
  | none => c

/-- Lowercase a character list (`title.lower()` in the program). -/
def lowerL (s : List Char) : List Char := s.map lowerChar

/-- Test that `needle` is a leading subsequence of `hay` (chars equal,
in order, from the head). -/
def startsWithL : List Char → List Char → Bool
  | [], _ => true
  | _ :: _, [] => false
  | n :: ns, h :: hs => n = h && startsWithL ns hs

/-- Python's substring containment `needle in hay`. -/
def containsSub (needle : List Char) : List Char → Bool
  | [] => startsWithL needle []
  | h :: hs => startsWithL needle (h :: hs) || containsSub needle hs

/-- Word character of the regex `\b` boundary (`\w`), ASCII model. -/
def isWordChar (c : Char) : Bool := c.isAlphanum || c = '_'

/-- Whitespace of the regex `\s`, ASCII model. -/
def isSpaceChar (c : Char) : Bool :=
  c = ' ' || c = '\t' || c = '\n' || c = '\r' || c = '\x0b' || c = '\x0c'

/-- Strip a literal from the head of the input; `some rest` on success. -/
def stripLit : List Char → List Char → Option (List Char)
  | [], s => some s
  | _ :: _, [] => none
  | l :: ls, c :: cs => if c = l then stripLit ls cs else none

/-- Maximal munch of `\s*`. -/
def dropSpaces (s : List Char) : List Char := s.dropWhile isSpaceChar

/-- Match `\s+` (at least one whitespace character, maximal munch). -/
def spacesPlus : List Char → Option (List Char)
  | [] => none
  | c :: cs => if isSpaceChar c then some (dropSpaces cs) else none

/-- The `\b` boundary placed just after a word character: the rest of the
input must start with a non-word character (or be empty). -/
def wordBoundaryAfter : List Char → Bool
  | [] => true
  | c :: _ => !isWordChar c

/-- The unit-noun alternation `(?:camera|cameras|camcorder|camcorders)`
followed by `\b`, as it appears in the quantity patterns. -/
def UNIT_NOUNS : List String := ["camera", "cameras", "camcorder", "camcorders"]

/-- Match one unit-noun alternative followed by a word boundary. -/
def unitNoun (s : List Char) : Bool :=
  UNIT_NOUNS.any (fun u =>
    match stripLit (chars u) s with
    | some r => wordBoundaryAfter r
    | none => false)

/-- Scan of `re.search` for a Bool pattern: try the pattern at every
position, left to right, threading whether the previous character was a
word character (for leading `\b` tests). -/
def searchB (f : Bool → List Char → Bool) : Bool → List Char → Bool
  | prev, [] => f prev []
  | prev, c :: cs => f prev (c :: cs) || searchB f (isWordChar c) cs

/-- Scan of `re.search` for a value-producing pattern (leftmost match
wins, as in Python). -/
def searchO (f : Bool → List Char → Option Nat) : Bool → List Char → Option Nat
  | prev, [] => f prev []
  | prev, c :: cs =>
    match f prev (c :: cs) with
    | some v => some v
    | none => searchO f (isWordChar c) cs

/-- Integer value of a digit run (`int(m.group(1))`). -/
def digitVal (ds : List Char) : Nat := ds.foldl (fun a c => a * 10 + (c.toNat - 48)) 0

/-!  The keyword tables of `src/monitor.py` (lines 49-120). -/

/-- Blocklist of near-certain junk terms (monitor.py lines 49-57). -/
def BLOCKLIST : List String :=
  ["junk", "spares", "broken", "repair", "parts only", "accessories only",
   "for spares"]

/-- Brand names (monitor.py lines 62-66). -/
def BRANDS : List String :=
  ["nikon", "canon", "olympus", "pentax", "konica", "minolta",
   "sony", "panasonic", "fujifilm", "ricoh", "casio", "kodak",
   "samsung", "jvc", "toshiba", "vivitar", "polaroid"]

/-- UK positive hints, weight 1 each in the scoring loop (lines 71-89). -/
def UK_POSITIVE_HINTS : List String :=
  ["job lot", "untested", "estate", "house clearance", "loft find",
   "garage find", "charity", "vintage", "old camera", "old cameras",
   "film camera", "film cameras", "digital camera", "digital cameras",
   "camera collection", "collection of cameras", "mixed cameras"]

/-- Big-lot hints, weight 2 each in the scoring loop (lines 91-107). -/
def BIG_LOT_HINTS : List String :=
  ["huge lot", "huge camera lot", "massive lot", "massive camera lot",
   "large lot", "large camera lot", "big lot", "big camera lot",
   "bulk lot", "bulk cameras", "bundle", "bundle of cameras",
   "box of cameras", "crate of cameras", "bag of cameras"]

/-- Spelled-out numbers, in the insertion order of the Python dict
`WORD_NUMBERS` (lines 112-120); the extraction loop iterates them in
this order. -/
def WORD_NUMBERS : List (String × Nat) :=
  [(("one"), 1), (("two"), 2), (("three"), 3), (("four"), 4), (("five"), 5),
   (("six"), 6), (("seven"), 7), (("eight"), 8), (("nine"), 9), (("ten"), 10),
   (("eleven"), 11), (("twelve"), 12), (("thirteen"), 13), (("fourteen"), 14),
   (("fifteen"), 15), (("sixteen"), 16), (("seventeen"), 17), (("eighteen"), 18),
   (("nineteen"), 19), (("twenty"), 20), (("thirty"), 30), (("forty"), 40),
   (("fifty"), 50), (("sixty"), 60), (("seventy"), 70), (("eighty"), 80),
   (("ninety"), 90), (("hundred"), 100), (("hundreds"), 100)]

/-- Alternatives of the core-words regex
`\b(camera|cameras|compact|dslr|slr|tlr|rangefinder|film|camcorder)\b`
(line 211). -/
def CORE_WORDS : List String :=
  ["camera", "cameras", "compact", "dslr", "slr", "tlr", "rangefinder",
   "film", "camcorder"]

/-- Alternatives of the model-hints regex
`\b(ftn?|nikkormat|ae-1|srt|om-1|om-10|k1000|spotmatic)\b` (line 219);
`ftn?` expands greedily to the two alternatives `ftn`, `ft`. -/
def MODEL_WORDS : List String :=
  ["ftn", "ft", "nikkormat", "ae-1", "srt", "om-1", "om-10", "k1000",
   "spotmatic"]

/-- Alternatives of the working-hints regex
`\b(shutter working|shutters working|tested working|fully working)\b`
(line 223). -/
def WORKING_WORDS : List String :=
  ["shutter working", "shutters working", "tested working", "fully working"]

/-- A regex of the shape `\b(alt1|alt2|...)\b` where every alternative
starts and ends with a word character: existence of a match anywhere in
the input. -/
def searchAlts (alts : List String) (t : List Char) : Bool :=
  searchB
    (fun prev s =>
      !prev && alts.any (fun a =>
        match stripLit (chars a) s with
        | some r => wordBoundaryAfter r
        | none => false))
    false t

/-- Pattern 1 of `extract_quantity` (line 166) tried at one position:
`\b(\d{1,4})\s*(?:x\s*)?(?:camera|cameras|camcorder|camcorders)\b`.
The digit group is the maximal digit run at the position (length 1-4,
else every backtrack leaves a digit next and the tail fails); the
optional `x\s*` is tried both with and without. -/
def tryP1 (prev : Bool) (s : List Char) : Option Nat :=
  if prev then none
  else
    let ds := s.takeWhile Char.isDigit
    let r := s.dropWhile Char.isDigit
    if ds.length = 0 || 4 < ds.length then none
    else
      let r2 := dropSpaces r
      let withX : Bool :=
        match stripLit ['x'] r2 with
        | some rx => unitNoun (dropSpaces rx)
        | none => false
      if withX || unitNoun r2 then some (digitVal ds) else none

/-- Alternatives of the container-word alternation in pattern 2, in the
written order `(?:lot|job lot|joblot|bundle|box|crate|bag)`. -/
def LOT_WORDS : List String :=
  ["lot", "job lot", "joblot", "bundle", "box", "crate", "bag"]

/-- Pattern 2 of `extract_quantity` (line 174) tried at one position:
`\b(?:lot|job lot|joblot|bundle|box|crate|bag)\s+of\s+(\d{1,4})\b`.
Each alternative is tried in order with the full continuation. -/
def tryP2 (prev : Bool) (s : List Char) : Option Nat :=
  if prev then none
  else
    LOT_WORDS.findSome? (fun w =>
      match stripLit (chars w) s with
      | none => none
      | some r =>
        match spacesPlus r with
        | none => none
        | some r2 =>
          match stripLit (chars ("of")) r2 with
          | none => none
          | some r3 =>
            match spacesPlus r3 with
            | none => none
            | some r4 =>
              let ds := r4.takeWhile Char.isDigit
              let r5 := r4.dropWhile Char.isDigit
              if ds.length = 0 || 4 < ds.length then none
              else if wordBoundaryAfter r5 then some (digitVal ds) else none)

/-- Pattern 3 of `extract_quantity` (line 183) for one word `w`, tried
at one position: `\b{w}\s+(?:camera|cameras|camcorder|camcorders)\b`. -/
def tryWordUnit (w : List Char) (prev : Bool) (s : List Char) : Bool :=
  !prev &&
    (match stripLit w s with
     | some r =>
       match spacesPlus r with
       | some r2 => unitNoun r2
       | none => false
     | none => false)

/-- Pattern 4 of `extract_quantity` (line 187) tried at one position:
`\bone\s+hundred\s+(?:camera|cameras|camcorder|camcorders)\b`; its tail
from `hundred` on is exactly `tryWordUnit` for `hundred` with a
non-word previous character. -/
def tryP4 (prev : Bool) (s : List Char) : Bool :=
  !prev &&
    (match stripLit (chars ("one")) s with
     | some r1 =>
       match spacesPlus r1 with
       | some r2 => tryWordUnit (chars ("hundred")) false r2
       | none => false
     | none => false)

/-- Search for pattern 1 over the whole (lowercased) title. -/
def searchP1 (t : List Char) : Option Nat := searchO tryP1 false t

/-- Search for pattern 2 over the whole (lowercased) title. -/
def searchP2 (t : List Char) : Option Nat := searchO tryP2 false t

/-- Step 3 of `extract_quantity`: iterate `WORD_NUMBERS` in dict order
and return the value of the first word whose pattern matches. -/
def searchP3 (t : List Char) : Option Nat :=
  WORD_NUMBERS.findSome? (fun wv =>
    if searchB (tryWordUnit (chars wv.1)) false t then some wv.2 else none)

/-- Search for pattern 4 over the whole (lowercased) title. -/
def searchP4 (t : List Char) : Bool := searchB tryP4 false t

/-- `extract_quantity(title)` (monitor.py lines 162-190): lowercase the
title, then try the four patterns in order, returning the first match. -/
def extract_quantity (title : String) : Option Nat :=
  let t := lowerL (chars title)
  match searchP1 t with
  | some v => some v
  | none =>
    match searchP2 t with
    | some v => some v
    | none =>
      match searchP3 t with
      | some v => some v
      | none => if searchP4 t then some 100 else none

/-- `extract_quantity` with its step 4 (`one hundred <unit>`) removed;
used to state that step 4 is dead code. -/
def extract_quantity_nostep4 (title : String) : Option Nat :=
  let t := lowerL (chars title)
  match searchP1 t with
  | some v => some v
  | none =>
    match searchP2 t with
    | some v => some v
    | none => searchP3 t

/-- `hard_reject(text)` on a character list (monitor.py lines 158-160):
lowercase the argument and test every blocklist word for substring
containment. -/
def hard_rejectL (text : List Char) : Bool :=
  let t := lowerL text
  BLOCKLIST.any (fun w => containsSub (chars w) t)

/-- `hard_reject` on strings. -/
def hard_reject (text : String) : Bool := hard_rejectL (chars text)

/-- `score_listing(title)` (monitor.py lines 192-237), mirroring the
statement order of the source: lowercase, hard-reject check, the two
per-keyword accumulation loops (+1 per matching UK hint, +2 per matching
big-lot hint), the four one-shot bonuses (+2 each), then the quantity
bonuses (+2 flat, +3 at 20, +4 at 50, +5 at 100). -/
def score_listing (title : String) : Int :=
  let t := lowerL (chars title)
  if hard_rejectL t then -999
  else
    let s0 : Int := UK_POSITIVE_HINTS.foldl
      (fun a w => if containsSub (chars w) t then a + 1 else a) 0
    let s1 := BIG_LOT_HINTS.foldl
      (fun a w => if containsSub (chars w) t then a + 2 else a) s0
    let s2 := if searchAlts CORE_WORDS t then s1 + 2 else s1
    let s3 := if BRANDS.any (fun b => containsSub (chars b) t) then s2 + 2 else s2
    let s4 := if searchAlts MODEL_WORDS t then s3 + 2 else s3
    let s5 := if searchAlts WORKING_WORDS t then s4 + 2 else s4
    match extract_quantity title with
    | none => s5
    | some qty =>
      let s6 := s5 + 2
      let s7 := if 20 ≤ qty then s6 + 3 else s6
      let s8 := if 50 ≤ qty then s7 + 4 else s7
      if 100 ≤ qty then s8 + 5 else s8

/-!  Decomposition helpers for the scorer, used to state how the
accumulation loops combine. -/

/-- Number of UK hints that substring-match the lowercased title. -/
def ukCount (t : List Char) : Nat :=
  (UK_POSITIVE_HINTS.filter (fun w => containsSub (chars w) t)).length

/-- Number of big-lot hints that substring-match the lowercased title. -/
def bigCount (t : List Char) : Nat :=
  (BIG_LOT_HINTS.filter (fun w => containsSub (chars w) t)).length

/-- The quantity bonus of `score_listing` (lines 227-235) as a function
of the extraction result. -/
def qtyBonus : Option Nat → Int
  | none => 0
  | some q =>
    2 + (if 20 ≤ q then 3 else 0) + (if 50 ≤ q then 4 else 0)
      + (if 100 ≤ q then 5 else 0)

/-- All non-quantity contributions of `score_listing` for a
non-rejected title, with the two keyword loops written as counts. -/
def posSignals (title : String) : Int :=
  let t := lowerL (chars title)
  (ukCount t : Int) + 2 * (bigCount t : Int)
    + (if searchAlts CORE_WORDS t then 2 else 0)
    + (if BRANDS.any (fun b => containsSub (chars b) t) then 2 else 0)
    + (if searchAlts MODEL_WORDS t then 2 else 0)
    + (if searchAlts WORKING_WORDS t then 2 else 0)

/-- Modelled from the spec: a scorer in which every keyword category
contributes its per-category weight at most once ("add a fixed
per-category weight if at least one keyword in that category
substring-matches the title"), with the program's weights (1 for UK
hints, 2 for every other category) and the program's remaining rules
unchanged. Stated for comparison with `score_listing`. -/
def score_listing_catOnce (title : String) : Int :=
  let t := lowerL (chars title)
  if hard_rejectL t then -999
  else
    (if UK_POSITIVE_HINTS.any (fun w => containsSub (chars w) t) then 1 else 0)
    + (if BIG_LOT_HINTS.any (fun w => containsSub (chars w) t) then 2 else 0)
    + (if searchAlts CORE_WORDS t then 2 else 0)
    + (if BRANDS.any (fun b => containsSub (chars b) t) then 2 else 0)
    + (if searchAlts MODEL_WORDS t then 2 else 0)
    + (if searchAlts WORKING_WORDS t then 2 else 0)
    + qtyBonus (extract_quantity title)

/-!  The seen cache (monitor.py lines 142-153). -/

/-- Capacity of the persisted seen cache (`[-2500:]`, line 153). -/
def SEEN_CAP : Nat := 2500

/-- `save_seen`: persist `list(seen)[-2500:]`, the last `SEEN_CAP`
entries of the set's enumeration.  Python's `set` fixes no enumeration
order, so the enumeration `enum` of the in-memory set is a parameter;
`Admissible` below says which enumerations `list(seen)` can produce. -/
def save_seen (enum : List String) : List String :=
  enum.drop (enum.length - SEEN_CAP)

/-- `load_seen`: read the persisted identifier list back; the resulting
Python `set` is modelled by the list itself, observed only through
membership. -/
def load_seen (saved : List String) : List String := saved

/-- The enumerations `list(seen)` can produce for a set with the
members of `seen`: each member exactly once, in some order. -/
def Admissible (seen enum : List String) : Prop :=
  enum.Nodup ∧ ∀ x, x ∈ enum ↔ x ∈ seen

/-!  The orchestrator (monitor.py `main`, lines 283-331). -/

/-- A normalized listing record. -/
structure Listing where
  id : String
  title : String
  price : String
  link : String
deriving DecidableEq, Repr

/-- The inner loop of `main` (lines 299-308) over one fetched result
list: skip ids already seen, otherwise mark seen, score, and append to
the alert pool when the score reaches the threshold 3.  The in-memory
Python `set` is modelled as the insertion-ordered duplicate-free list
of its members (membership is its only observable). -/
def processItems : List String → List (Int × Listing) → List Listing →
    List String × List (Int × Listing)
  | seen, alerts, [] => (seen, alerts)
  | seen, alerts, it :: rest =>
    if it.id ∈ seen then processItems seen alerts rest
    else
      let s := score_listing it.title
      processItems (seen ++ [it.id])
        (if 3 ≤ s then alerts ++ [(s, it)] else alerts) rest

/-- The outer loop of `main` (lines 292-310): one entry per source URL;
`none` models a `fetch_search` exception, which is caught and skipped. -/
def processRun : List String → List (Int × Listing) →
    List (Option (List Listing)) → List String × List (Int × Listing)
  | seen, alerts, [] => (seen, alerts)
  | seen, alerts, none :: bs => processRun seen alerts bs
  | seen, alerts, some items :: bs =>
    let st := processItems seen alerts items
    processRun st.1 st.2 bs

/-- The seen set (as insertion-ordered list) after one run's loops. -/
def runSeen (seen0 : List String) (bs : List (Option (List Listing))) : List String :=
  (processRun seen0 [] bs).1

/-- The accumulated alert pool after one run's loops, in encounter
order. -/
def runPool (seen0 : List String) (bs : List (Option (List Listing))) :
    List (Int × Listing) :=
  (processRun seen0 [] bs).2

/-- Descending-score order used by `alerts.sort(key=..., reverse=True)`:
`a` may come before `b` iff `b`'s score is at most `a`'s. -/
def rGE (a b : Int × Listing) : Prop := b.1 ≤ a.1

instance : DecidableRel rGE := fun a b => inferInstanceAs (Decidable (b.1 ≤ a.1))

instance : IsTotal (Int × Listing) rGE := ⟨fun a b => le_total b.1 a.1⟩

instance : IsTrans (Int × Listing) rGE := ⟨fun _ _ _ h1 h2 => le_trans h2 h1⟩

/-- Lines 315-316 of `main`: stable sort by score descending (Python's
sort is stable and `reverse=True` preserves tie order), then truncate
to the top 5. -/
def rank (cands : List (Int × Listing)) : List (Int × Listing) :=
  (List.insertionSort rGE cands).take 5

/-- The alerts one run delivers, in delivery order. -/
def runAlerts (seen0 : List String) (bs : List (Option (List Listing))) :
    List (Int × Listing) :=
  rank (runPool seen0 bs)

/-- All ids offered by the successful fetches of a run, in encounter
order. -/
def batchIds : List (Option (List Listing)) → List String
  | [] => []
  | none :: bs => batchIds bs
  | some items :: bs => items.map (fun it => it.id) ++ batchIds bs

/-- Observable outcome of a completed run: the persisted store and the
alerts handed to the notifier, in order. -/
structure RunResult where
  savedStore : List String
  sent : List (Int × Listing)
deriving DecidableEq, Repr

/-- `main` end to end (lines 283-331): process all sources, then
`save_seen` (line 312) - which `main` does not guard with `try` - then
rank and deliver the alerts.  `saveOk = false` models an I/O error
raised inside `save_seen`: the exception propagates out of `main`, so
ranking and delivery never run. -/
def mainRun (seen0 : List String) (bs : List (Option (List Listing)))
    (enum : List String) (saveOk : Bool) : Except Unit RunResult :=
  let st := processRun seen0 [] bs
  if saveOk then Except.ok ⟨save_seen enum, rank st.2⟩ else Except.error ()

/-- The run's scored candidates: the `(score, listing)` pair of every
newly processed listing, in encounter order, before the threshold
filter; first component the updated seen list. -/
def traceItems : List String → List Listing →
    List String × List (Int × Listing)
  | seen, [] => (seen, [])
  | seen, it :: rest =>
    if it.id ∈ seen then traceItems seen rest
    else
      let st := traceItems (seen ++ [it.id]) rest
      (st.1, (score_listing it.title, it) :: st.2)

/-- `traceItems` over all of a run's sources. -/
def traceRun : List String → List (Option (List Listing)) →
    List String × List (Int × Listing)
  | seen, [] => (seen, [])
  | seen, none :: bs => traceRun seen bs
  | seen, some items :: bs =>
    let st := traceItems seen items
    let st2 := traceRun st.1 bs
    (st2.1, st.2 ++ st2.2)

/-- Whether the character just before the current position is a word
character, after scanning a list of characters starting from state
`prev`; this is the state `searchB`/`searchO` thread while scanning. -/
def flagAfter (prev : Bool) : List Char → Bool
  | [] => prev
  | c :: cs => flagAfter (isWordChar c) cs

/-- Quantity pattern 1 (digit count then unit noun) on a title. -/
def qpatDigitUnit (title : String) : Option Nat := searchP1 (lowerL (chars title))

/-- Quantity pattern 2 (`lot of N` style phrase) on a title. -/
def qpatLotOf (title : String) : Option Nat := searchP2 (lowerL (chars title))

/-- Quantity pattern 3 (spelled-out number then unit noun) on a title. -/
def qpatWordUnit (title : String) : Option Nat := searchP3 (lowerL (chars title))

/-- Quantity pattern 4 (`one hundred` then unit noun) on a title. -/
def qpatOneHundred (title : String) : Bool := searchP4 (lowerL (chars title))

/-!  Concrete data for counterexamples and witnesses. -/

/-- Distinct identifiers for the capacity scenarios. -/
def idOf (n : Nat) : String := String.mk (List.replicate (n + 1) ('a'))

/-- 2501 distinct identifiers, one more than the cache capacity. -/
def badIds : List String := (List.range (SEEN_CAP + 1)).map idOf

/-- An enumeration of the same set in reverse insertion order (a Python
`set` may enumerate in any order). -/
def badEnum : List String := badIds.reverse

/-- A raw record with identifier `idOf n` and a title scoring 12. -/
def lotRecord (n : Nat) : Listing :=
  ⟨idOf n, ("job lot of 50 cameras"), (""), idOf n⟩

/-- A run-1 batch of 2501 distinct new records; `lotRecord 0` is its
first (hence oldest-seen) record. -/
def bigBatch : List Listing := (List.range (SEEN_CAP + 1)).map lotRecord

/-- Record used by the C6 witness run 1. -/
def seenRecW : Listing := ⟨("i"), ("job lot of 50 cameras"), (""), ("i")⟩

/-- A different record (fresh identifier) used by the C6 witness run 2. -/
def otherRecX : Listing := ⟨("x"), ("job lot of 50 cameras"), (""), ("x")⟩

/-- Record used by the C7 counterexample. -/
def rec7 : Listing := ⟨("u1"), ("job lot of 50 cameras"), ("£10"), ("u1")⟩

/-- A dummy listing with all fields set to one string. -/
def mkL (s : String) : Listing := ⟨s, s, s, s⟩

/-- The spec's ranker example: eight candidates scoring 9,7,7,5,4,3,2,1. -/
def cands8 : List (Int × Listing) :=
  [(9, mkL ("a")), (7, mkL ("b")), (7, mkL ("c")), (5, mkL ("d")),
   (4, mkL ("e")), (3, mkL ("f")), (2, mkL ("g")), (1, mkL ("h"))]

/-- Listings with the same title but different id, price and link. -/
def l9a : Listing := ⟨("a1"), ("cameras"), ("£1"), ("k1")⟩

/-- Second listing for the purity witness. -/
def l9b : Listing := ⟨("b2"), ("cameras"), ("£999"), ("k2")⟩

/-!  Lowercasing is idempotent; `score_listing` passes an already
lowercased string to `hard_reject`, which lowercases again. -/

theorem lowerChar_idem (c : Char) : lowerChar (lowerChar c) = lowerChar c := by
  have h2 : ∀ p ∈ UPPER_LOWER, lowerChar p.2 = p.2 := by decide
  cases hf : UPPER_LOWER.find? (fun p => p.1 = c) with
  | none =>
    have hc : lowerChar c = c := by unfold lowerChar; rw [hf]
    rw [hc]
    exact hc
  | some p =>
    have hc : lowerChar c = p.2 := by unfold lowerChar; rw [hf]
    rw [hc, h2 p (List.mem_of_find?_eq_some hf)]

theorem lowerL_idem (s : List Char) : lowerL (lowerL s) = lowerL s := by
  simp only [lowerL, List.map_map]
  induction s with
  | nil => rfl
  | cons c cs ih => simp only [List.map_cons, Function.comp_apply, lowerChar_idem, ih]

theorem hard_rejectL_lowerL (x : List Char) :
    hard_rejectL (lowerL x) = hard_rejectL x := by
  simp only [hard_rejectL, lowerL_idem]

/-- C1. Hard rejection short-circuits the scorer: any title containing a
blocklisted substring case-insensitively scores the sentinel -999,
whatever else the title contains. -/
theorem score_blocklist_sentinel (title w : String) (hw : w ∈ BLOCKLIST)
    (hc : containsSub (chars w) (lowerL (chars title)) = true) :
    score_listing title = -999 := by
  have hr : hard_rejectL (lowerL (chars title)) = true := by
    simp only [hard_rejectL, lowerL_idem, List.any_eq_true]
    exact ⟨w, hw, hc⟩
  simp only [score_listing, hr, if_true]

/-- C1 witness: the spec's example title is rejected. -/
theorem score_blocklist_sentinel_witness :
    score_listing ("Nikon job lot 50 cameras BROKEN for parts") = -999 :=
  score_blocklist_sentinel ("Nikon job lot 50 cameras BROKEN for parts") ("broken")
    (by decide) (by decide)

/-!  Decomposition of the scorer's accumulation loops. -/

theorem foldl_count_add (L : List String) (P : String → Bool) (k : Int) :
    ∀ init : Int,
      L.foldl (fun a w => if P w then a + k else a) init
        = init + k * ((L.filter P).length : Int) := by
  induction L with
  | nil => intro init; simp
  | cons w L ih =>
    intro init
    by_cases h : P w <;> simp only [List.foldl_cons, List.filter_cons, h,
      if_true, if_false, ih, List.length_cons] <;> push_cast <;> ring

theorem ite_add_split {p : Prop} [Decidable p] (x k : Int) :
    (if p then x + k else x) = x + (if p then k else 0) := by
  split_ifs <;> simp

/-- The scorer equals the sum of its parts: -999 on hard rejection,
otherwise one point per matching UK hint, two per matching big-lot
hint, the four one-shot two-point bonuses, and the quantity bonus. -/
theorem score_listing_decomp (title : String) :
    score_listing title =
      if hard_reject title then -999
      else posSignals title + qtyBonus (extract_quantity title) := by
  have hhr : hard_rejectL (lowerL (chars title)) = hard_reject title := by
    simp only [hard_reject, hard_rejectL, lowerL_idem]
  cases hv : hard_reject title with
  | true =>
    rw [hv] at hhr
    simp only [score_listing, posSignals, hhr, if_true]
  | false =>
    rw [hv] at hhr
    simp only [score_listing, posSignals, ukCount, bigCount, hhr,
      Bool.false_eq_true, if_false]
    rw [foldl_count_add _ _ 1, foldl_count_add _ _ 2]
    cases hq : extract_quantity title with
    | none => simp only [ite_add_split, qtyBonus]; ring
    | some q => simp only [ite_add_split, qtyBonus]; ring

/-- C3 counterexample: the title `job lot untested` is not rejected,
matches two UK hints and nothing else, and scores 2; a scorer that adds
each category's weight at most once gives it 1 — so a title matching
several keywords of one category does not score like a title matching
exactly one. -/
theorem category_weight_counterexample :
    hard_reject ("job lot untested") = false
    ∧ score_listing ("job lot untested") = 2
    ∧ score_listing_catOnce ("job lot untested") = 1 :=
  ⟨by decide, by decide, by decide⟩

/-- C3 (amended). The regex-based categories (core words, brands, model
hints, working hints) contribute their weight at most once each, but
the UK-hint and big-lot-hint loops contribute their weight once per
matching keyword: the score of a non-rejected title is the matching-UK
count, plus twice the matching-big-lot count, plus the four one-shot
bonuses, plus the quantity bonus. -/
theorem score_decomposition (title : String) :
    score_listing title =
      if hard_reject title then -999
      else posSignals title + qtyBonus (extract_quantity title) :=
  score_listing_decomp title

/-- C5. The quantity bonus is monotonic and cumulative: with equal
positive signals and no rejection, extracted quantity 100 beats 50,
which beats 10, which beats no quantity; each threshold's bonus stacks
on the lower ones; and the bonus is monotone in the quantity. -/
theorem quantity_bonus_monotone :
    (∀ t1 t2 : String, hard_reject t1 = false → hard_reject t2 = false →
      posSignals t1 = posSignals t2 →
      ((extract_quantity t1 = some 100 ∧ extract_quantity t2 = some 50)
        ∨ (extract_quantity t1 = some 50 ∧ extract_quantity t2 = some 10)
        ∨ (extract_quantity t1 = some 10 ∧ extract_quantity t2 = none)) →
      score_listing t2 < score_listing t1)
    ∧ (∀ q : Nat,
        (100 ≤ q → qtyBonus (some q) = 2 + 3 + 4 + 5)
        ∧ (50 ≤ q → q < 100 → qtyBonus (some q) = 2 + 3 + 4)
        ∧ (20 ≤ q → q < 50 → qtyBonus (some q) = 2 + 3)
        ∧ (q < 20 → qtyBonus (some q) = 2))
    ∧ (∀ q1 q2 : Nat, q1 ≤ q2 → qtyBonus (some q1) ≤ qtyBonus (some q2)) := by
  refine ⟨?_, ?_, ?_⟩
  · intro t1 t2 h1 h2 hpos hcase
    rw [score_listing_decomp t1, score_listing_decomp t2, h1, h2]
    simp only [Bool.false_eq_true, if_false, hpos]
    rcases hcase with ⟨e1, e2⟩ | ⟨e1, e2⟩ | ⟨e1, e2⟩ <;> rw [e1, e2] <;>
      simp only [qtyBonus] <;> norm_num
  · intro q
    refine ⟨?_, ?_, ?_, ?_⟩ <;> intros <;> simp only [qtyBonus] <;>
      split_ifs <;> omega
  · intro q1 q2 h
    simp only [qtyBonus]
    split_ifs <;> omega

/-- C5 witness: concrete titles with equal positive signals and
quantities 100, 50, 10, absent give strictly decreasing scores. -/
theorem quantity_bonus_monotone_witness :
    score_listing ("50 cameras") < score_listing ("100 cameras")
    ∧ score_listing ("10 cameras") < score_listing ("50 cameras")
    ∧ score_listing ("cameras") < score_listing ("10 cameras") :=
  ⟨quantity_bonus_monotone.1 ("100 cameras") ("50 cameras")
      (by decide) (by decide) (by decide) (Or.inl ⟨by decide, by decide⟩),
   quantity_bonus_monotone.1 ("50 cameras") ("10 cameras")
      (by decide) (by decide) (by decide) (Or.inr (Or.inl ⟨by decide, by decide⟩)),
   quantity_bonus_monotone.1 ("10 cameras") ("cameras")
      (by decide) (by decide) (by decide) (Or.inr (Or.inr ⟨by decide, by decide⟩))⟩

/-!  Structure of the pattern matchers, used for the precedence and
dead-step-4 claims. -/

theorem stripLit_eq_append (w : List Char) :
    ∀ s r, stripLit w s = some r → s = w ++ r := by
  induction w with
  | nil =>
    intro s r h
    simp only [stripLit, Option.some.injEq] at h
    simp [h]
  | cons l ls ih =>
    intro s r h
    cases s with
    | nil => simp [stripLit] at h
    | cons c cs =>
      simp only [stripLit] at h
      by_cases hc : c = l
      · rw [if_pos hc] at h
        have h2 := ih cs r h
        simp [hc, h2]
      · rw [if_neg hc] at h
        cases h

theorem spacesPlus_decomp (r r2 : List Char) (h : spacesPlus r = some r2) :
    ∃ sp, r = sp ++ r2 ∧ sp ≠ [] ∧ ∀ c ∈ sp, isSpaceChar c = true := by
  cases r with
  | nil => simp [spacesPlus] at h
  | cons c cs =>
    simp only [spacesPlus] at h
    by_cases hc : isSpaceChar c
    · rw [if_pos hc] at h
      have hr2 : dropSpaces cs = r2 := Option.some.inj h
      refine ⟨c :: cs.takeWhile isSpaceChar, ?_, by simp, ?_⟩
      · rw [← hr2]
        simp only [dropSpaces, List.cons_append, List.cons.injEq, true_and]
        exact (List.takeWhile_append_dropWhile isSpaceChar cs).symm
      · intro x hx
        rcases List.mem_cons.mp hx with h1 | h2
        · rw [h1]; exact hc
        · exact List.mem_takeWhile_imp h2
    · rw [if_neg hc] at h
      cases h

theorem isSpace_not_word (c : Char) (h : isSpaceChar c = true) :
    isWordChar c = false := by
  simp only [isSpaceChar, Bool.or_eq_true, decide_eq_true_eq] at h
  rcases h with ((((rfl | rfl) | rfl) | rfl) | rfl) | rfl <;> decide

theorem flagAfter_append (prev : Bool) (a b : List Char) :
    flagAfter prev (a ++ b) = flagAfter (flagAfter prev a) b := by
  induction a generalizing prev with
  | nil => rfl
  | cons c cs ih => simp only [List.cons_append, flagAfter]; exact ih _

theorem flagAfter_spaces (sp : List Char) :
    sp ≠ [] → (∀ c ∈ sp, isSpaceChar c = true) →
      ∀ prev, flagAfter prev sp = false := by
  induction sp with
  | nil => intro hne; cases hne rfl
  | cons c cs ih =>
    intro _ hsp prev
    simp only [flagAfter]
    cases cs with
    | nil =>
      simp only [flagAfter]
      exact isSpace_not_word c (hsp c (by simp))
    | cons d ds =>
      exact ih (by simp) (fun x hx => hsp x (List.mem_cons_of_mem _ hx)) _

theorem searchB_of_matchAt (f : Bool → List Char → Bool) (pre : List Char) :
    ∀ (s : List Char) (prev : Bool), f (flagAfter prev pre) s = true →
      searchB f prev (pre ++ s) = true := by
  induction pre with
  | nil =>
    intro s prev h
    cases s with
    | nil => simpa [searchB, flagAfter] using h
    | cons c cs =>
      simp only [List.nil_append, searchB, Bool.or_eq_true]
      exact Or.inl (by simpa [flagAfter] using h)
  | cons c cs ih =>
    intro s prev h
    simp only [List.cons_append, searchB, Bool.or_eq_true]
    exact Or.inr (ih s (isWordChar c) (by simpa [flagAfter] using h))

theorem tryP4_decomp (prev : Bool) (s : List Char) (h : tryP4 prev s = true) :
    ∃ pre r2, s = pre ++ r2 ∧ flagAfter prev pre = false
      ∧ tryWordUnit (chars ("hundred")) false r2 = true := by
  have h' := h
  simp only [tryP4, Bool.and_eq_true] at h'
  obtain ⟨_, hm⟩ := h'
  cases h1 : stripLit (chars ("one")) s with
  | none => simp only [h1] at hm; cases hm
  | some r1 =>
    simp only [h1] at hm
    cases h2 : spacesPlus r1 with
    | none => simp only [h2] at hm; cases hm
    | some r2 =>
      simp only [h2] at hm
      obtain ⟨sp, hsp1, hsp2, hsp3⟩ := spacesPlus_decomp r1 r2 h2
      refine ⟨chars ("one") ++ sp, r2, ?_, ?_, hm⟩
      · rw [stripLit_eq_append _ _ _ h1, hsp1, List.append_assoc]
      · rw [flagAfter_append]
        exact flagAfter_spaces sp hsp2 hsp3 _

theorem searchP4_implies_hundred (t : List Char) :
    ∀ prev, searchB tryP4 prev t = true →
      searchB (tryWordUnit (chars ("hundred"))) prev t = true := by
  induction t with
  | nil =>
    intro prev h
    cases prev <;> exact absurd h (by decide)
  | cons c cs ih =>
    intro prev h
    have h' := h
    simp only [searchB, Bool.or_eq_true] at h'
    rcases h' with h1 | h2
    · obtain ⟨pre, r2, hs, hflag, hm⟩ := tryP4_decomp prev (c :: cs) h1
      rw [hs]
      exact searchB_of_matchAt _ pre r2 prev (by rw [hflag]; exact hm)
    · show searchB _ prev (c :: cs) = true
      simp only [searchB, Bool.or_eq_true]
      exact Or.inr (ih (isWordChar c) h2)

theorem searchP3_none_hundred (t : List Char) (h : searchP3 t = none) :
    searchB (tryWordUnit (chars ("hundred"))) false t = false := by
  cases hE : searchB (tryWordUnit (chars ("hundred"))) false t with
  | false => rfl
  | true =>
    exfalso
    have hmem : ((("hundred"), 100) : String × Nat) ∈ WORD_NUMBERS := by decide
    have h2 : (if searchB (tryWordUnit (chars ("hundred"))) false t then
        some (100 : Nat) else none) = none :=
      List.findSome?_eq_none_iff.mp h ((("hundred"), 100)) hmem
    rw [hE] at h2
    cases h2

theorem searchP4_false_of_searchP3_none (t : List Char) (h : searchP3 t = none) :
    searchP4 t = false := by
  cases h4 : searchP4 t with
  | false => rfl
  | true =>
    exfalso
    have hh := searchP3_none_hundred t h
    have ht := searchP4_implies_hundred t false (by simpa only [searchP4] using h4)
    rw [ht] at hh
    cases hh

/-- C4. Quantity extraction tries the digit-then-unit pattern first,
then the `lot of N` phrase, then the spelled-out-number patterns, and
returns the first match; when none of them matches the result is
absent. -/
theorem quantity_precedence :
    (∀ t : String, (qpatDigitUnit t).isSome = true →
      extract_quantity t = qpatDigitUnit t)
    ∧ (∀ t : String, qpatDigitUnit t = none → (qpatLotOf t).isSome = true →
      extract_quantity t = qpatLotOf t)
    ∧ (∀ t : String, qpatDigitUnit t = none → qpatLotOf t = none →
      (qpatWordUnit t).isSome = true → extract_quantity t = qpatWordUnit t)
    ∧ (∀ t : String, qpatDigitUnit t = none → qpatLotOf t = none →
      qpatWordUnit t = none → extract_quantity t = none) := by
  refine ⟨?_, ?_, ?_, ?_⟩
  · intro t h
    simp only [qpatDigitUnit] at h ⊢
    cases h1 : searchP1 (lowerL (chars t)) with
    | none => rw [h1] at h; cases h
    | some v => simp only [extract_quantity, h1]
  · intro t h1 h2
    simp only [qpatDigitUnit] at h1
    simp only [qpatLotOf] at h2 ⊢
    cases hv : searchP2 (lowerL (chars t)) with
    | none => rw [hv] at h2; cases h2
    | some v => simp only [extract_quantity, h1, hv]
  · intro t h1 h2 h3
    simp only [qpatDigitUnit] at h1
    simp only [qpatLotOf] at h2
    simp only [qpatWordUnit] at h3 ⊢
    cases hv : searchP3 (lowerL (chars t)) with
    | none => rw [hv] at h3; cases h3
    | some v => simp only [extract_quantity, h1, h2, hv]
  · intro t h1 h2 h3
    simp only [qpatDigitUnit] at h1
    simp only [qpatLotOf] at h2
    simp only [qpatWordUnit] at h3
    simp only [extract_quantity, h1, h2, h3,
      searchP4_false_of_searchP3_none _ h3, Bool.false_eq_true, if_false]

/-- C4 witness: on the spec's example, pattern 1 fails, and the
`lot of 30` phrase wins over the spelled-out `thirty`, giving 30. -/
theorem quantity_precedence_witness :
    extract_quantity ("lot of 30, about thirty cameras") = some 30 := by
  have h := quantity_precedence.2.1 ("lot of 30, about thirty cameras")
    (by decide) (by decide)
  rw [h]
  decide

/-- C10. The fourth extraction step (`one hundred <unit>`) never
determines the result: the extractor equals the same function with
step 4 removed, since any title whose step 4 pattern matches also
matches step 3's `hundred <unit>` pattern and is returned there. -/
theorem step4_redundant (title : String) :
    extract_quantity title = extract_quantity_nostep4 title := by
  simp only [extract_quantity, extract_quantity_nostep4]
  cases h1 : searchP1 (lowerL (chars title)) with
  | some v => rfl
  | none =>
    cases h2 : searchP2 (lowerL (chars title)) with
    | some v => rfl
    | none =>
      cases h3 : searchP3 (lowerL (chars title)) with
      | some v => rfl
      | none =>
        simp only [searchP4_false_of_searchP3_none _ h3,
          Bool.false_eq_true, if_false, h3]

/-!  The ranker: stability, sortedness, truncation. -/

theorem filter_orderedInsert (s : Int) (x : Int × Listing) :
    ∀ L : List (Int × Listing),
      (List.orderedInsert rGE x L).filter (fun p => decide (p.1 = s))
        = if x.1 = s then x :: L.filter (fun p => decide (p.1 = s))
          else L.filter (fun p => decide (p.1 = s))
  | [] => by
    simp only [List.orderedInsert_nil, List.filter_cons, List.filter_nil]
    by_cases hx : x.1 = s <;> simp [hx]
  | b :: L => by
    simp only [List.orderedInsert]
    by_cases hr : rGE x b
    · rw [if_pos hr]
      simp only [List.filter_cons]
      by_cases hx : x.1 = s <;> by_cases hb : b.1 = s <;> simp [hx, hb]
    · rw [if_neg hr]
      simp only [List.filter_cons]
      rw [filter_orderedInsert s x L]
      by_cases hx : x.1 = s
      · by_cases hb : b.1 = s
        · exact absurd (show rGE x b from le_of_eq (hb.trans hx.symm)) hr
        · simp [hx, hb]
      · by_cases hb : b.1 = s <;> simp [hx, hb]

theorem filter_insertionSort (s : Int) :
    ∀ L : List (Int × Listing),
      (List.insertionSort rGE L).filter (fun p => decide (p.1 = s))
        = L.filter (fun p => decide (p.1 = s))
  | [] => rfl
  | x :: L => by
    simp only [List.insertionSort]
    rw [filter_orderedInsert, filter_insertionSort s L]
    simp only [List.filter_cons]
    by_cases hx : x.1 = s <;> simp [hx]

theorem rank_sorted (cands : List (Int × Listing)) :
    List.Sorted rGE (rank cands) :=
  List.Pairwise.sublist (List.take_sublist 5 _) (List.sorted_insertionSort rGE cands)

theorem rank_subset (cands : List (Int × Listing)) (p : Int × Listing)
    (h : p ∈ rank cands) : p ∈ cands :=
  (List.mem_insertionSort rGE).mp (List.take_subset 5 _ h)

theorem rank_length (cands : List (Int × Listing)) : (rank cands).length ≤ 5 :=
  List.length_take_le 5 _

theorem rank_stable (cands : List (Int × Listing)) (s : Int) :
    ∃ rest, cands.filter (fun p => decide (p.1 = s))
      = (rank cands).filter (fun p => decide (p.1 = s)) ++ rest := by
  refine ⟨((List.insertionSort rGE cands).drop 5).filter (fun p => decide (p.1 = s)), ?_⟩
  rw [← filter_insertionSort s cands]
  conv_lhs => rw [← List.take_append_drop 5 (List.insertionSort rGE cands)]
  rw [List.filter_append]
  rfl

/-!  Bridge between the orchestrator loops and the candidate trace. -/

theorem processItems_eq_trace (items : List Listing) :
    ∀ (seen : List String) (alerts : List (Int × Listing)),
      processItems seen alerts items
        = ((traceItems seen items).1,
           alerts ++ (traceItems seen items).2.filter (fun p => decide (3 ≤ p.1))) := by
  induction items with
  | nil => intro seen alerts; simp [processItems, traceItems]
  | cons it rest ih =>
    intro seen alerts
    by_cases h : it.id ∈ seen
    · simp only [processItems, traceItems, if_pos h]
      exact ih seen alerts
    · simp only [processItems, traceItems, if_neg h]
      rw [ih]
      simp only [List.filter_cons]
      by_cases hs : 3 ≤ score_listing it.title
      · simp [hs, List.append_assoc]
      · simp [hs]

theorem processRun_eq_trace (bs : List (Option (List Listing))) :
    ∀ (seen : List String) (alerts : List (Int × Listing)),
      processRun seen alerts bs
        = ((traceRun seen bs).1,
           alerts ++ (traceRun seen bs).2.filter (fun p => decide (3 ≤ p.1))) := by
  induction bs with
  | nil => intro seen alerts; simp [processRun, traceRun]
  | cons b bs ih =>
    intro seen alerts
    cases b with
    | none => simp only [processRun, traceRun]; exact ih seen alerts
    | some items =>
      simp only [processRun, traceRun]
      rw [processItems_eq_trace, ih]
      simp [List.filter_append, List.append_assoc]

/-- C8. Ranking: the run's alerts are exactly the threshold filter of
the run's scored candidates, stably sorted by score descending and
truncated to the top 5; the output is sorted, at most 5 long, a subset
of its input, preserves encounter order within equal scores, and never
contains a below-threshold candidate. -/
theorem ranker_top5_stable :
    (∀ (seen0 : List String) (bs : List (Option (List Listing))),
      runAlerts seen0 bs
        = rank ((traceRun seen0 bs).2.filter (fun p => decide (3 ≤ p.1))))
    ∧ (∀ cands : List (Int × Listing), List.Sorted rGE (rank cands))
    ∧ (∀ cands : List (Int × Listing), (rank cands).length ≤ 5)
    ∧ (∀ (cands : List (Int × Listing)) (p : Int × Listing),
        p ∈ rank cands → p ∈ cands)
    ∧ (∀ (cands : List (Int × Listing)) (s : Int), ∃ rest,
        cands.filter (fun p => decide (p.1 = s))
          = (rank cands).filter (fun p => decide (p.1 = s)) ++ rest)
    ∧ (∀ (seen0 : List String) (bs : List (Option (List Listing)))
        (p : Int × Listing), p ∈ runAlerts seen0 bs → 3 ≤ p.1) := by
  refine ⟨?_, rank_sorted, rank_length, rank_subset, rank_stable, ?_⟩
  · intro seen0 bs
    unfold runAlerts runPool
    rw [processRun_eq_trace]
    simp
  · intro seen0 bs p hp
    unfold runAlerts runPool at hp
    rw [processRun_eq_trace] at hp
    have h2 := rank_subset _ _ hp
    rw [List.nil_append] at h2
    exact of_decide_eq_true (List.mem_filter.mp h2).2

/-- C8 witness: on the spec's eight-candidate example the top candidate
of the ranked output is one of the inputs. -/
theorem ranker_top5_stable_witness : (9, mkL ("a")) ∈ cands8 :=
  ranker_top5_stable.2.2.2.1 cands8 ((9, mkL ("a"))) (by decide)

/-!  Seen-set bookkeeping of the orchestrator loops. -/

theorem traceItems_seen_mem (items : List Listing) :
    ∀ (seen : List String) (i : String),
      i ∈ (traceItems seen items).1
        ↔ i ∈ seen ∨ i ∈ items.map (fun it => it.id) := by
  induction items with
  | nil => intro seen i; simp [traceItems]
  | cons it rest ih =>
    intro seen i
    by_cases h : it.id ∈ seen
    · simp only [traceItems, if_pos h, ih, List.map_cons, List.mem_cons]
      constructor
      · rintro (hs | hr)
        · exact Or.inl hs
        · exact Or.inr (Or.inr hr)
      · rintro (hs | rfl | hr)
        · exact Or.inl hs
        · exact Or.inl h
        · exact Or.inr hr
    · simp only [traceItems, if_neg h, ih, List.map_cons, List.mem_cons,
        List.mem_append, List.mem_singleton]
      tauto

theorem traceItems_seen_nodup (items : List Listing) :
    ∀ seen : List String, seen.Nodup → (traceItems seen items).1.Nodup := by
  induction items with
  | nil => intro seen h; simpa [traceItems] using h
  | cons it rest ih =>
    intro seen h
    by_cases hm : it.id ∈ seen
    · simpa [traceItems, hm] using ih seen h
    · simp only [traceItems, if_neg hm]
      refine ih _ ?_
      simp [List.nodup_append, h, hm]

theorem traceItems_alert_ids (items : List Listing) :
    ∀ (seen : List String) (p : Int × Listing), p ∈ (traceItems seen items).2 →
      p.1 = score_listing p.2.title ∧ p.2.id ∉ seen := by
  induction items with
  | nil => intro seen p hp; simp [traceItems] at hp
  | cons it rest ih =>
    intro seen p hp
    by_cases h : it.id ∈ seen
    · simp only [traceItems, if_pos h] at hp
      exact ih seen p hp
    · simp only [traceItems, if_neg h] at hp
      rcases List.mem_cons.mp hp with rfl | hp2
      · exact ⟨rfl, h⟩
      · have h2 := ih _ p hp2
        exact ⟨h2.1, fun hc => h2.2 (List.mem_append.mpr (Or.inl hc))⟩

theorem traceRun_seen_mem (bs : List (Option (List Listing))) :
    ∀ (seen : List String) (i : String),
      i ∈ (traceRun seen bs).1 ↔ i ∈ seen ∨ i ∈ batchIds bs := by
  induction bs with
  | nil => intro seen i; simp [traceRun, batchIds]
  | cons b bs ih =>
    intro seen i
    cases b with
    | none => simp only [traceRun, batchIds]; exact ih seen i
    | some items =>
      simp only [traceRun, batchIds, List.mem_append]
      rw [ih, traceItems_seen_mem]
      tauto

theorem traceRun_seen_nodup (bs : List (Option (List Listing))) :
    ∀ seen : List String, seen.Nodup → (traceRun seen bs).1.Nodup := by
  induction bs with
  | nil => intro seen h; simpa [traceRun] using h
  | cons b bs ih =>
    intro seen h
    cases b with
    | none => simpa [traceRun] using ih seen h
    | some items =>
      simp only [traceRun]
      exact ih _ (traceItems_seen_nodup items seen h)

theorem traceRun_alert_ids (bs : List (Option (List Listing))) :
    ∀ (seen : List String) (p : Int × Listing), p ∈ (traceRun seen bs).2 →
      p.1 = score_listing p.2.title ∧ p.2.id ∉ seen := by
  induction bs with
  | nil => intro seen p hp; simp [traceRun] at hp
  | cons b bs ih =>
    intro seen p hp
    cases b with
    | none => simp only [traceRun] at hp; exact ih seen p hp
    | some items =>
      simp only [traceRun, List.mem_append] at hp
      rcases hp with hp1 | hp2
      · exact traceItems_alert_ids items seen p hp1
      · have h2 := ih _ p hp2
        refine ⟨h2.1, fun hc => h2.2 ?_⟩
        exact (traceItems_seen_mem items seen _).mpr (Or.inl hc)

theorem runSeen_eq_trace (seen0 : List String) (bs : List (Option (List Listing))) :
    runSeen seen0 bs = (traceRun seen0 bs).1 := by
  unfold runSeen
  rw [processRun_eq_trace]

theorem runAlerts_unseen (seen0 : List String) (bs : List (Option (List Listing)))
    (p : Int × Listing) (hp : p ∈ runAlerts seen0 bs) :
    p.1 = score_listing p.2.title ∧ p.2.id ∉ seen0 := by
  unfold runAlerts runPool at hp
  rw [processRun_eq_trace] at hp
  have h2 := rank_subset _ _ hp
  rw [List.nil_append] at h2
  exact traceRun_alert_ids bs seen0 p (List.mem_filter.mp h2).1

/-!  New records with distinct identifiers are all appended, in order. -/

theorem traceItems_seen_all_new (items : List Listing) :
    ∀ seen : List String,
      (∀ it ∈ items, it.id ∉ seen) → (items.map (fun it => it.id)).Nodup →
      (traceItems seen items).1 = seen ++ items.map (fun it => it.id) := by
  induction items with
  | nil => intro seen _ _; simp [traceItems]
  | cons it rest ih =>
    intro seen hnew hnd
    have h : it.id ∉ seen := hnew it (by simp)
    have hnd2 : (it.id :: rest.map (fun it => it.id)).Nodup := by simpa using hnd
    simp only [traceItems, if_neg h]
    rw [ih (seen ++ [it.id]) ?_ (List.nodup_cons.mp hnd2).2]
    · simp [List.append_assoc]
    · intro it2 h2 hc
      rcases List.mem_append.mp hc with hc1 | hc2
      · exact hnew it2 (List.mem_cons_of_mem _ h2) hc1
      · simp only [List.mem_singleton] at hc2
        exact (List.nodup_cons.mp hnd2).1 (hc2 ▸ List.mem_map_of_mem _ h2)

theorem idOf_injective : Function.Injective idOf := by
  intro a b h
  have h1 : (chars (idOf a)).length = (chars (idOf b)).length := by rw [h]
  have h2 : a + 1 = b + 1 := by simpa [idOf, chars] using h1
  omega

theorem badIds_nodup : badIds.Nodup :=
  List.Nodup.map idOf_injective (List.nodup_range _)

theorem badIds_length : badIds.length = SEEN_CAP + 1 := by simp [badIds]

theorem badIds_eq_cons :
    badIds = idOf 0 :: (List.range' 1 SEEN_CAP).map idOf := by
  unfold badIds
  rw [List.range_eq_range', List.range'_succ]
  simp

theorem bigBatch_map_ids : bigBatch.map (fun it => it.id) = badIds := by
  unfold bigBatch badIds
  rw [List.map_map]
  congr 1

theorem idOf_zero_not_drop : idOf 0 ∉ badIds.drop 1 := by
  rw [badIds_eq_cons]
  simp only [List.drop_succ_cons, List.drop_zero]
  intro hc
  have hnd := badIds_nodup
  rw [badIds_eq_cons] at hnd
  exact (List.nodup_cons.mp hnd).1 hc

theorem save_seen_badIds : save_seen badIds = badIds.drop 1 := by
  unfold save_seen
  rw [badIds_length]
  congr 1

theorem traceRun_single (seen : List String) (items : List Listing) :
    (traceRun seen [some items]).1 = (traceItems seen items).1 := by
  simp only [traceRun]

theorem runSeen_bigBatch : runSeen [] [some bigBatch] = badIds := by
  rw [runSeen_eq_trace, traceRun_single,
    traceItems_seen_all_new bigBatch [] (fun it _ => by simp)
      (by rw [bigBatch_map_ids]; exact badIds_nodup),
    bigBatch_map_ids, List.nil_append]

theorem load_seen_eq (saved : List String) : load_seen saved = saved := rfl

theorem save_seen_eq (enum : List String) :
    save_seen enum = enum.drop (enum.length - SEEN_CAP) := rfl

theorem batchIds_single (items : List Listing) :
    batchIds [some items] = items.map (fun it => it.id) := by
  simp [batchIds]

theorem processRun_single_new (seen : List String) (it : Listing)
    (h : it.id ∉ seen) :
    (processRun seen [] [some [it]]).2
      = if 3 ≤ score_listing it.title
        then [(score_listing it.title, it)] else [] := by
  simp only [processRun, processItems, if_neg h]
  split_ifs <;> simp

theorem runAlerts_single_new (seen : List String) (it : Listing)
    (h : it.id ∉ seen) (hs : 3 ≤ score_listing it.title) :
    runAlerts seen [some [it]] = [(score_listing it.title, it)] := by
  unfold runAlerts runPool
  rw [processRun_single_new seen it h, if_pos hs]
  rfl

/-- C6 counterexample: run 1 processes 2501 distinct new records
(`lotRecord 0` first), so the seen set holds one identifier more than
the capacity; even with the store enumerated in insertion order the
save drops the oldest identifier, and run 2, given the persisted store,
emits an alert for the very record `lotRecord 0` that run 1 already
processed — so the same raw record is alerted again in the second run. -/
theorem dedup_realert_counterexample :
    runSeen [] [some bigBatch] = badIds
    ∧ Admissible badIds badIds
    ∧ (lotRecord 0).id ∈ batchIds [some bigBatch]
    ∧ (12, lotRecord 0)
        ∈ runAlerts (load_seen (save_seen badIds)) [some [lotRecord 0]] := by
  have hnot : (lotRecord 0).id ∉ load_seen (save_seen badIds) := by
    rw [load_seen_eq, save_seen_badIds]
    exact idOf_zero_not_drop
  refine ⟨runSeen_bigBatch, ⟨badIds_nodup, fun x => Iff.rfl⟩, ?_, ?_⟩
  · rw [batchIds_single, bigBatch_map_ids, badIds_eq_cons]
    exact List.mem_cons_self _ _
  · rw [runAlerts_single_new _ _ hnot (by decide)]
    have hs12 : score_listing (lotRecord 0).title = 12 := by decide
    rw [hs12]
    exact List.mem_singleton_self _

/-- C6 (amended). Within a run, an already-seen listing is skipped
entirely (the loop state is unchanged), the final seen set holds each
identifier exactly once (no duplicates, membership is initial-or-
encountered), and — provided the seen set does not exceed the save
capacity, so that persisting loses nothing — a record processed in run
1 is never alerted in run 2 under any enumeration the persisted set
may use. -/
theorem dedup_skip_and_mark :
    (∀ (seen : List String) (alerts : List (Int × Listing)) (it : Listing)
        (rest : List Listing), it.id ∈ seen →
      processItems seen alerts (it :: rest) = processItems seen alerts rest)
    ∧ (∀ (seen0 : List String) (bs : List (Option (List Listing))),
        seen0.Nodup → (runSeen seen0 bs).Nodup)
    ∧ (∀ (seen0 : List String) (bs : List (Option (List Listing))) (i : String),
        i ∈ runSeen seen0 bs ↔ i ∈ seen0 ∨ i ∈ batchIds bs)
    ∧ (∀ (seen0 : List String) (bs1 : List (Option (List Listing)))
        (enum : List String) (bs2 : List (Option (List Listing)))
        (p : Int × Listing) (i : String),
        seen0.Nodup →
        Admissible (runSeen seen0 bs1) enum →
        (runSeen seen0 bs1).length ≤ SEEN_CAP →
        i ∈ batchIds bs1 →
        p ∈ runAlerts (load_seen (save_seen enum)) bs2 → p.2.id ≠ i) := by
  refine ⟨?_, ?_, ?_, ?_⟩
  · intro seen alerts it rest h
    simp only [processItems, if_pos h]
  · intro seen0 bs h
    rw [runSeen_eq_trace]
    exact traceRun_seen_nodup bs seen0 h
  · intro seen0 bs i
    rw [runSeen_eq_trace]
    exact traceRun_seen_mem bs seen0 i
  · intro seen0 bs1 enum bs2 p i hnd hadm hlen hi hp
    have hnd2 : (runSeen seen0 bs1).Nodup := by
      rw [runSeen_eq_trace]; exact traceRun_seen_nodup bs1 seen0 hnd
    have hiseen : i ∈ runSeen seen0 bs1 := by
      rw [runSeen_eq_trace]
      exact (traceRun_seen_mem bs1 seen0 i).mpr (Or.inr hi)
    have hperm : List.Perm enum (runSeen seen0 bs1) :=
      (List.perm_ext_iff_of_nodup hadm.1 hnd2).mpr hadm.2
    have helen : enum.length ≤ SEEN_CAP := hperm.length_eq ▸ hlen
    have hsave : save_seen enum = enum := by
      rw [save_seen_eq, Nat.sub_eq_zero_of_le helen, List.drop_zero]
    have hload : i ∈ load_seen (save_seen enum) := by
      rw [load_seen_eq, hsave]
      exact (hadm.2 i).mpr hiseen
    have hun := runAlerts_unseen _ _ _ hp
    intro hc
    exact hun.2 (hc ▸ hload)

/-- C6 witness: with the one-record store persisted without truncation,
a run-2 alert can only concern a different identifier. -/
theorem dedup_skip_and_mark_witness : (12, otherRecX).2.id ≠ ("i") := by
  have hrs : runSeen [] [some [seenRecW]] = [("i")] := by decide
  refine dedup_skip_and_mark.2.2.2 [] [some [seenRecW]] [("i")] [some [otherRecX]]
    ((12, otherRecX)) ("i") (by decide) ?_ ?_ (by decide) (by decide)
  · rw [hrs]
    exact ⟨by decide, fun x => Iff.rfl⟩
  · rw [hrs]
    decide

/-- C2 counterexample: insert 2501 distinct identifiers; the Python set
may enumerate them in reverse insertion order, and then the persisted
store keeps the oldest 2500 and drops the newest — Save/Load does not
retain the most recently inserted identifiers. -/
theorem seen_eviction_counterexample :
    badIds.Nodup ∧ SEEN_CAP < badIds.length ∧ Admissible badIds badEnum ∧
    ¬ (∀ x, x ∈ load_seen (save_seen badEnum)
        ↔ x ∈ badIds.drop (badIds.length - SEEN_CAP)) := by
  have hlen := badIds_length
  refine ⟨badIds_nodup, by rw [hlen]; omega, ⟨?_, ?_⟩, ?_⟩
  · unfold badEnum
    exact List.nodup_reverse.mpr badIds_nodup
  · intro x
    unfold badEnum
    exact List.mem_reverse
  · intro hall
    have hdrop1 : badIds.length - SEEN_CAP = 1 := by rw [hlen]; omega
    have hmem : idOf 0 ∈ load_seen (save_seen badEnum) := by
      rw [load_seen_eq, save_seen_eq]
      unfold badEnum
      rw [List.length_reverse, hlen]
      have h1 : SEEN_CAP + 1 - SEEN_CAP = 1 := by omega
      rw [h1, badIds_eq_cons, List.reverse_cons]
      cases hrv : ((List.range' 1 SEEN_CAP).map idOf).reverse with
      | nil =>
        exfalso
        have h2 := congrArg List.length hrv
        simp only [List.length_reverse, List.length_map, List.length_range',
          List.length_nil] at h2
        exact absurd h2 (by decide)
      | cons c cs =>
        simp only [List.cons_append, List.drop_succ_cons, List.drop_zero]
        exact List.mem_append.mpr (Or.inr (List.mem_singleton_self _))
    have hnot2 : idOf 0 ∉ badIds.drop (badIds.length - SEEN_CAP) := by
      rw [hdrop1]
      exact idOf_zero_not_drop
    exact hnot2 ((hall (idOf 0)).mp hmem)

/-- C2 (amended). A Save/Load round trip yields a subset of the
inserted identifiers of size at most 2500 (exactly 2500 when at least
that many were present); when the store holds at most 2500 identifiers
nothing is dropped and membership is preserved exactly, but beyond the
capacity which identifiers survive depends on the set's arbitrary
enumeration order, not on insertion order. -/
theorem seen_save_bounded_subset (seen enum : List String)
    (hadm : Admissible seen enum) :
    (∀ x ∈ load_seen (save_seen enum), x ∈ seen)
    ∧ (load_seen (save_seen enum)).length ≤ SEEN_CAP
    ∧ (SEEN_CAP ≤ enum.length → (load_seen (save_seen enum)).length = SEEN_CAP)
    ∧ (seen.Nodup → seen.length ≤ SEEN_CAP →
        ∀ x, x ∈ load_seen (save_seen enum) ↔ x ∈ seen) := by
  refine ⟨?_, ?_, ?_, ?_⟩
  · intro x hx
    rw [load_seen_eq, save_seen_eq] at hx
    exact (hadm.2 x).mp (List.drop_subset _ _ hx)
  · rw [load_seen_eq, save_seen_eq, List.length_drop]
    omega
  · intro hle
    rw [load_seen_eq, save_seen_eq, List.length_drop]
    omega
  · intro hnd hlen x
    have hperm : List.Perm enum seen :=
      (List.perm_ext_iff_of_nodup hadm.1 hnd).mpr hadm.2
    have helen : enum.length ≤ SEEN_CAP := hperm.length_eq ▸ hlen
    rw [load_seen_eq, save_seen_eq, Nat.sub_eq_zero_of_le helen, List.drop_zero]
    exact hadm.2 x

/-- C2 witness: a two-identifier store enumerated in swapped order
still round-trips within the capacity bound. -/
theorem seen_save_bounded_subset_witness :
    (load_seen (save_seen [("a"), ("b")])).length ≤ SEEN_CAP := by
  refine (seen_save_bounded_subset ([("b"), ("a")]) ([("a"), ("b")])
    ⟨by decide, ?_⟩).2.1
  intro x
  simp only [List.mem_cons, List.not_mem_nil, or_false]
  tauto

/-- C7 counterexample: with one fetched record that scores above the
threshold, a failing save aborts the run (the result is the propagated
error) even though the run had a nonempty alert list to deliver. -/
theorem save_failure_counterexample :
    mainRun [] [some [rec7]] (runSeen [] [some [rec7]]) false
        = Except.error ()
    ∧ runAlerts [] [some [rec7]] ≠ [] := by
  constructor
  · rfl
  · decide

/-- C7 (amended). `main` does not guard `save_seen`: if saving raises,
the exception propagates and the run ends with no ranking and no alert
delivery; only a successful save reaches delivery, and then the alerts
are exactly the ranked pool. -/
theorem save_failure_aborts_run (seen0 : List String)
    (bs : List (Option (List Listing))) (enum : List String) :
    mainRun seen0 bs enum false = Except.error ()
    ∧ mainRun seen0 bs enum true
        = Except.ok ⟨save_seen enum, runAlerts seen0 bs⟩ := by
  exact ⟨rfl, rfl⟩

/-- C9. The scorer is a pure function of the title text: listings with
equal titles receive equal scores and equal extracted quantities
whatever their other fields, and every alert a run emits carries
exactly `score_listing` of its listing's title, independent of the
seen store, the batch layout, or previously processed records. -/
theorem scorer_pure_deterministic :
    (∀ l1 l2 : Listing, l1.title = l2.title →
      score_listing l1.title = score_listing l2.title
        ∧ extract_quantity l1.title = extract_quantity l2.title)
    ∧ (∀ (seen0 : List String) (bs : List (Option (List Listing)))
        (p : Int × Listing), p ∈ runAlerts seen0 bs →
        p.1 = score_listing p.2.title) := by
  constructor
  · intro l1 l2 h
    rw [h]
    exact ⟨rfl, rfl⟩
  · intro seen0 bs p hp
    exact (runAlerts_unseen seen0 bs p hp).1

/-- C9 witness: two listings sharing a title but differing in id, price
and link score identically. -/
theorem scorer_pure_deterministic_witness :
    score_listing l9a.title = score_listing l9b.title :=
  (scorer_pure_deterministic.1 l9a l9b (by decide)).1
